import Mathlib

set_option maxRecDepth 10000

/-!
Verification development for the overweight repository: a shallow embedding of
the check-and-report pipeline (size-unit parsing, configuration normalization,
the check engine) and of the baseline/PR reconciliation state machine of the
GitHub Action surface, together with theorems settling the specified
properties.  Each definition is translated from the corresponding JavaScript
source; JS numbers are modelled as exact rationals, JS strings as Lean
strings, and asynchronous/remote calls as explicit oracles whose responses
parameterize the functions.
-/

namespace Overweight

/-! ### Character classes (ASCII model of the JS regexes involved) -/

/-- Whitespace recognised by `String.prototype.trim` and the `\s` class,
restricted to the ASCII characters that can occur here. -/
def isJsWhitespace (c : Char) : Bool :=
  c.toNat = 32 || c.toNat = 9 || c.toNat = 10 || c.toNat = 13 || c.toNat = 12 || c.toNat = 11

/-- The `\d` class (ASCII digits). -/
def isDigitChar (c : Char) : Bool :=
  48 ≤ c.toNat && c.toNat ≤ 57

/-- The `[a-z]` class. -/
def isLowerAlphaChar (c : Char) : Bool :=
  97 ≤ c.toNat && c.toNat ≤ 122

/-- `String.prototype.toLowerCase` on one ASCII character. -/
def jsToLowerChar (c : Char) : Char :=
  if 65 ≤ c.toNat && c.toNat ≤ 90 then Char.ofNat (c.toNat + 32) else c

/-- `String.prototype.toLowerCase` (ASCII model). -/
def jsToLower (s : String) : String :=
  String.mk (s.data.map jsToLowerChar)

/-- `String.prototype.trim`. -/
def jsTrim (s : String) : String :=
  String.mk (((s.data.dropWhile isJsWhitespace).reverse.dropWhile isJsWhitespace).reverse)

/-- `value.replace(/\s+/g, "")`. -/
def stripWhitespace (s : String) : String :=
  String.mk (s.data.filter (fun c => !isJsWhitespace c))

/-! ### src/utils/size.js -/

/-- A JavaScript value as it can reach `parseSize`.  A finite number is
modelled exactly as a rational; a non-finite number (`NaN`, `±Infinity`)
falls through the `Number.isFinite` guard into the not-a-string branch. -/
inductive JsSizeValue where
  | num (x : ℚ)
  | nonFiniteNum
  | str (s : String)
  | other (typeName : String)
deriving DecidableEq

/-- The `UNIT_FACTORS` table of src/utils/size.js. -/
def UNIT_FACTORS : List (String × ℕ) :=
  [("b", 1), ("byte", 1), ("bytes", 1),
   ("k", 1000), ("kb", 1000), ("kib", 1024),
   ("m", 1000000), ("mb", 1000000), ("mib", 1048576),
   ("g", 1000000000), ("gb", 1000000000), ("gib", 1073741824)]

/-- The capture groups of a successful match of
`/^(-?\d+(?:\.\d+)?)([a-z]+)?$/i` against the normalized size string.
`fracDigits = []` encodes an absent fraction part, `unitChars = []` an
absent unit group. -/
structure SizeMatch where
  neg : Bool
  intDigits : List Char
  fracDigits : List Char
  unitChars : List Char
deriving DecidableEq

/-- Matching `/^(-?\d+(?:\.\d+)?)([a-z]+)?$/i` against an already lowercased,
whitespace-free string.  Greedy digit/letter runs coincide with the regex
semantics here because no backtracking alternative can ever consume a digit
after `\d+` or a letter after `[a-z]+`. -/
def matchSizeFormat (cs : List Char) : Option SizeMatch :=
  let startPair : Bool × List Char :=
    match cs with
    | '-' :: t => (true, t)
    | _ => (false, cs)
  let neg := startPair.1
  let r0 := startPair.2
  let intD := r0.takeWhile isDigitChar
  let r1 := r0.dropWhile isDigitChar
  if intD.isEmpty then none
  else
    let fracPair : List Char × List Char :=
      match r1 with
      | '.' :: t =>
        if (t.takeWhile isDigitChar).isEmpty then ([], r1)
        else (t.takeWhile isDigitChar, t.dropWhile isDigitChar)
      | _ => ([], r1)
    let fracD := fracPair.1
    let r2 := fracPair.2
    let unitD := r2.takeWhile isLowerAlphaChar
    let r3 := r2.dropWhile isLowerAlphaChar
    if r3.isEmpty then
      some { neg := neg, intDigits := intD, fracDigits := fracD, unitChars := unitD }
    else none

/-- Value of a digit run, most significant first. -/
def digitsToNat (ds : List Char) : ℕ :=
  ds.foldl (fun acc c => 10 * acc + (c.toNat - 48)) 0

/-- The exact value of the matched decimal literal.  This models
`Number(rawNumber)` exactly; the float rounding of enormous literals is
abstracted away (such a literal would be rejected as non-finite in JS). -/
def matchedNumber (m : SizeMatch) : ℚ :=
  let mag : ℚ :=
    (digitsToNat m.intDigits : ℚ) + (digitsToNat m.fracDigits : ℚ) / ((10 : ℚ) ^ m.fracDigits.length)
  if m.neg then -mag else mag

/-- `Math.round`: round half toward positive infinity. -/
def jsRound (q : ℚ) : ℤ :=
  ⌊q + 1 / 2⌋

/-- `value.trim().toLowerCase().replace(/\s+/g, "")`. -/
def normalizeSizeString (s : String) : String :=
  stripWhitespace (jsToLower (jsTrim s))

/-- `parseSize` of src/utils/size.js.  Thrown `Error`s become `Except.error`
with the thrown message. -/
def parseSize : JsSizeValue → Except String ℚ
  | .num x => .ok x
  | .nonFiniteNum => .error "Unsupported size value. Expected string or number, received: number"
  | .other typeName =>
    .error ("Unsupported size value. Expected string or number, received: " ++ typeName)
  | .str value =>
    let normalized := normalizeSizeString value
    match matchSizeFormat normalized.data with
    | none => .error ("Invalid size format: \"" ++ value ++ "\"")
    | some m =>
      let unit := if m.unitChars.isEmpty then "b" else String.mk m.unitChars
      match UNIT_FACTORS.lookup unit with
      | none => .error ("Unknown size unit \"" ++ unit ++ "\" in value \"" ++ value ++ "\"")
      | some factor => .ok ((jsRound (matchedNumber m * (factor : ℚ)) : ℤ) : ℚ)

/-- `toDisplaySize` of src/utils/size.js, with the external `prettyBytes`
renderer passed in as `fmt` (it is an out-of-scope library call). -/
def toDisplaySize (fmt : ℚ → String) (original : JsSizeValue) (bytes : ℚ) : String :=
  match original with
  | .str s => if (jsTrim s).length ≠ 0 then jsTrim s else fmt bytes
  | _ => fmt bytes

/-! ### Sequencing of fallible steps

JS `for` loops that `await` a fallible body and push results are embedded as
this sequential monadic map: the first thrown error aborts the whole loop. -/

/-- Sequential map over a list where each step may fail; results keep the
traversal order. -/
def exceptMapM {α β ε : Type} (f : α → Except ε β) : List α → Except ε (List β)
  | [] => .ok []
  | x :: xs =>
    match f x with
    | .error e => .error e
    | .ok y =>
      match exceptMapM f xs with
      | .error e => .error e
      | .ok ys => .ok (y :: ys)

/-! ### src/testers — registry and id normalization -/

def DEFAULT_TESTER_ID : String := "gzip"

def NORMALIZED_TOKENS : List String := ["none", "gzip", "brotli"]

/-- A tester's identity; its `measure` function is an external effect and is
supplied to the check engine as an oracle keyed by the tester id. -/
structure Tester where
  id : String
  label : String
deriving DecidableEq

def noneTester : Tester := { id := "none", label := "raw" }

def gzipTester : Tester := { id := "gzip", label := "gzip" }

def brotliTester : Tester := { id := "brotli", label := "brotli" }

def builtinTesters : List Tester := [noneTester, gzipTester, brotliTester]

/-- `normalizeTesterId` of src/testers/shared.js: a falsy id defaults to
gzip; known tokens are lower-cased, anything else passes through verbatim. -/
def normalizeTesterId (value : String) : String :=
  if value = "" then DEFAULT_TESTER_ID
  else
    let normalized := jsToLower value
    if NORMALIZED_TOKENS.contains normalized then normalized else value

/-- Lookup in the registry built by `createTesterRegistry`: a `Map` seeded
with the builtins and then overlaid with the custom testers, so the last
custom tester with a given id shadows builtins and earlier customs. -/
def registryLookup (customTesters : List Tester) (id : String) : Option Tester :=
  match customTesters.reverse.find? (fun t => t.id == id) with
  | some t => some t
  | none => builtinTesters.find? (fun t => t.id == id)

/-- `getTester` of src/testers/shared.js. -/
def getTester (testerId : String) (customTesters : List Tester) : Except String Tester :=
  match registryLookup customTesters (normalizeTesterId testerId) with
  | some t => .ok t
  | none => .error ("Unknown tester \"" ++ testerId ++ "\"")

/-! ### src/config/load-config.js — normalization -/

/-- `value || default` on an optional JS string (both `undefined` and the
empty string are falsy). -/
def jsOrD (value : Option String) (dflt : String) : String :=
  match value with
  | some s => if s = "" then dflt else s
  | none => dflt

/-- One entry of the `files` list after zod's `FileSchema` has accepted it
(the dynamic type checks of the schema are subsumed by this typed shape). -/
structure RawFileEntry where
  path : String
  maxSize : JsSizeValue
  compression : Option String
  label : Option String
deriving DecidableEq

/-- A raw configuration object after zod's `ConfigSchema` shape check
(an array input has already been wrapped by `ensureArrayConfig`). -/
structure RawConfigObject where
  root : Option String
  defaultCompression : Option String
  files : List RawFileEntry
deriving DecidableEq

/-- One normalized file rule as produced by the `files.map` body of
`normalizeConfig`.  `fmt` stands for the external `prettyBytes` renderer
behind `formatBytes`. -/
structure NormalizedRule where
  path : String
  pattern : String
  label : String
  compression : String
  maxBytes : ℚ
  maxSizeInput : JsSizeValue
  maxDisplay : String
  maxFormatted : String
deriving DecidableEq

/-- The per-file-entry body of `normalizeConfig`: parse `maxSize`, reject a
negative budget, resolve the effective compression and display strings. -/
def normalizeFileRule (fmt : ℚ → String) (defaultCompression : String)
    (file : RawFileEntry) : Except String NormalizedRule :=
  match parseSize file.maxSize with
  | .error e => .error e
  | .ok maxBytes =>
    if maxBytes < 0 then
      .error ("maxSize for \"" ++ file.path ++ "\" must be greater than or equal to zero")
    else
      .ok { path := file.path
            pattern := file.path
            label := jsOrD file.label file.path
            compression := jsToLower (jsOrD file.compression defaultCompression)
            maxBytes := maxBytes
            maxSizeInput := file.maxSize
            maxDisplay := toDisplaySize fmt file.maxSize maxBytes
            maxFormatted := fmt maxBytes }

/-- `normalizeConfig`, restricted to the parts with observable logic: the
zod minimum-one-file check, the default-compression resolution and the
per-file mapping.  Root resolution only rebases paths and is dropped. -/
def normalizeConfigRules (fmt : ℚ → String) (cfg : RawConfigObject) :
    Except String (List NormalizedRule) :=
  if cfg.files.isEmpty then .error "Provide at least one file rule to check"
  else
    let defaultCompression := jsToLower (jsOrD cfg.defaultCompression DEFAULT_TESTER_ID)
    exceptMapM (normalizeFileRule fmt defaultCompression) cfg.files

/-! ### src/config/load-config.js — discovery (`loadConfig`, dist variant
with the overweight.json tier, matching the repository's built action/CLI
and its tests) -/

/-- Provenance of a loaded configuration. -/
inductive ConfigSource where
  | inlineSource
  | fileSource (location : String)
  | packageSource (location : String)
deriving DecidableEq

/-- The filesystem and normalization collaborators of `loadConfig`.  `Cfg`
stands for a parsed JSON document, `NC` for a normalized configuration;
`readJson` is only consulted for paths where `fileExists` holds, and its
error case is the JSON-parse failure.  `overweightField` returns `none`
for an absent or falsy `overweight` field of package.json. -/
structure LoadEnv (Cfg NC : Type) where
  fileExists : String → Bool
  readJson : String → Except String Cfg
  overweightField : Cfg → Option Cfg
  ensureArrayConfig : Cfg → Cfg
  normalize : Cfg → ConfigSource → Except String NC

/-- `path.join(root, file)` for POSIX paths. -/
def jsPathJoin (root file : String) : String := root ++ "/" ++ file

/-- Prefix test on raw character lists (model of `String.prototype.startsWith`). -/
def strStartsWith (s pre : String) : Bool := pre.data.isPrefixOf s.data

/-- `path.resolve(root, p)` for POSIX paths with an already-resolved root. -/
def jsPathResolve (root p : String) : String :=
  if strStartsWith p ("/") then p else root ++ "/" ++ p

/-- `tryLoadConfig` of the dist `loadConfig`: `ok none` encodes the JS
`null` for a missing candidate file; read or normalization errors abort. -/
def tryLoadConfig {Cfg NC : Type} (env : LoadEnv Cfg NC) (candidatePath : String) :
    Except String (Option NC) :=
  if env.fileExists candidatePath then
    match env.readJson candidatePath with
    | .error e => .error e
    | .ok data =>
      match env.normalize data (.fileSource candidatePath) with
      | .error e => .error e
      | .ok nc => .ok (some nc)
  else .ok none

def NO_CONFIG_MSG : String :=
  "No overweight configuration found. Create an overweight.json (or overweight.config.json) file, add an `overweight` field to package.json, or pass --config."

/-- `loadConfig`: inline config short-circuits; an explicit config path is
mandatory once given; otherwise the default locations are probed in order
and package.json's `overweight` field is the last resort. -/
def loadConfig {Cfg NC : Type} (env : LoadEnv Cfg NC) (root : String)
    (configPath : Option String) (inlineConfig : Option Cfg) : Except String NC :=
  match inlineConfig with
  | some c => env.normalize c .inlineSource
  | none =>
    match configPath with
    | some p =>
      let absoluteConfig := jsPathResolve root p
      match tryLoadConfig env absoluteConfig with
      | .error e => .error e
      | .ok none => .error ("Could not find config file at \"" ++ absoluteConfig ++ "\"")
      | .ok (some nc) => .ok nc
    | none =>
      match tryLoadConfig env (jsPathJoin root ("overweight.json")) with
      | .error e => .error e
      | .ok (some nc) => .ok nc
      | .ok none =>
        match tryLoadConfig env (jsPathJoin root ("overweight.config.json")) with
        | .error e => .error e
        | .ok (some nc) => .ok nc
        | .ok none =>
          let packageJsonPath := jsPathJoin root ("package.json")
          if env.fileExists packageJsonPath then
            match env.readJson packageJsonPath with
            | .error e => .error e
            | .ok pkgJson =>
              match env.overweightField pkgJson with
              | some field =>
                env.normalize (env.ensureArrayConfig field) (.packageSource packageJsonPath)
              | none => .error NO_CONFIG_MSG
          else .error NO_CONFIG_MSG

/-! ### src/core/run-checks.js — the check engine

Byte counts are modelled as integers (`ℤ`): every size the pipeline
produces is a byte count.  The filesystem, the glob resolver and the
testers' `measure` functions are oracles in `CheckEnv`; `measure` returns
`none` exactly when `Number(measurement?.bytes)` would be non-finite. -/

structure FileMatchM where
  absolutePath : String
  relativePath : String
deriving DecidableEq

/-- A normalized file rule as consumed by `runChecks` (byte budget as an
integer; the display strings are carried verbatim). -/
structure FileRule where
  pattern : String
  label : String
  compression : String
  maxBytes : ℤ
  maxFormatted : String
deriving DecidableEq

structure NormalizedConfigM where
  root : String
  defaultCompression : String
  files : List FileRule
deriving DecidableEq

structure CheckEnv where
  resolveFiles : String → List FileMatchM
  measure : String → String → Option ℤ
  formatBytes : ℤ → String
  formatDiff : ℤ → String
  customTesters : List Tester

structure CheckResult where
  pattern : String
  label : String
  filePath : String
  absolutePath : Option String
  tester : String
  testerLabel : String
  size : Option ℤ
  sizeFormatted : String
  maxSizeFormatted : String
  maxSize : ℤ
  diff : Option ℤ
  diffFormatted : String
  passed : Bool
  error : Option String
deriving DecidableEq

/-- `buildMissingResult` of src/core/run-checks.js. -/
def buildMissingResult (rule : FileRule) : CheckResult :=
  { pattern := rule.pattern
    label := rule.label
    filePath := rule.pattern
    absolutePath := none
    tester := rule.compression
    testerLabel := rule.compression
    size := none
    sizeFormatted := "N/A"
    maxSizeFormatted := rule.maxFormatted
    maxSize := rule.maxBytes
    diff := none
    diffFormatted := "N/A"
    passed := false
    error := some ("No files matched this pattern") }

/-- The body of the inner `for (const match of matches)` loop. -/
def measureMatch (env : CheckEnv) (tester : Tester) (rule : FileRule)
    (m : FileMatchM) : Except String CheckResult :=
  match env.measure tester.id m.absolutePath with
  | none =>
    .error ("Tester \"" ++ tester.id ++ "\" did not return a numeric size for \"" ++
      m.relativePath ++ "\"")
  | some size =>
    let diff := size - rule.maxBytes
    .ok { pattern := rule.pattern
          label := rule.label
          filePath := m.relativePath
          absolutePath := some m.absolutePath
          tester := tester.id
          testerLabel := tester.label
          size := some size
          sizeFormatted := env.formatBytes size
          maxSizeFormatted := rule.maxFormatted
          maxSize := rule.maxBytes
          diff := some diff
          diffFormatted := env.formatDiff diff
          passed := decide (diff ≤ 0)
          error := none }

/-- The effective tester id of a rule: `fileRule.compression ||
normalizedConfig.defaultCompression`. -/
def effectiveTesterId (cfg : NormalizedConfigM) (rule : FileRule) : String :=
  if rule.compression = "" then cfg.defaultCompression else rule.compression

/-- One iteration of the outer `for (const fileRule of ...)` loop of
`runChecks`: resolve the tester (aborting the run on an unknown id), expand
the pattern, and either emit the one synthetic missing-pattern result or
measure every match. -/
def checkRule (env : CheckEnv) (cfg : NormalizedConfigM) (rule : FileRule) :
    Except String (List CheckResult) :=
  match getTester (effectiveTesterId cfg rule) env.customTesters with
  | .error e => .error e
  | .ok tester =>
    let fileMatches := env.resolveFiles rule.pattern
    if fileMatches.isEmpty then .ok [buildMissingResult rule]
    else exceptMapM (measureMatch env tester rule) fileMatches

structure CheckStats where
  files : ℕ
  failures : List CheckResult
  hasFailures : Bool
  hasErrors : Bool
deriving DecidableEq

structure CheckRun where
  results : List CheckResult
  stats : CheckStats
deriving DecidableEq

/-- `runChecks` of src/core/run-checks.js over an already-normalized
configuration (the `isNormalizedConfig` re-normalization shortcut is about
the sentinel flag only and is outside this model). -/
def runChecks (env : CheckEnv) (cfg : NormalizedConfigM) : Except String CheckRun :=
  match exceptMapM (checkRule env cfg) cfg.files with
  | .error e => .error e
  | .ok perRule =>
    let results := perRule.flatten
    let failures := results.filter (fun entry => !entry.passed || entry.error.isSome)
    .ok { results := results
          stats := { files := results.length
                     failures := failures
                     hasFailures := decide (0 < failures.length)
                     hasErrors := failures.any (fun entry => entry.error.isSome) } }

/-! ### String splitting (model of `String.prototype.split` with a
one-character separator, the only shape the action code uses) -/

def splitOnCharAux (sep : Char) : List Char → List Char → List (List Char)
  | [], acc => [acc.reverse]
  | c :: rest, acc =>
    if c = sep then acc.reverse :: splitOnCharAux sep rest []
    else splitOnCharAux sep rest (c :: acc)

def splitOnCharL (sep : Char) (l : List Char) : List (List Char) :=
  splitOnCharAux sep l []

/-! ### src/action/branch.js -/

def DEFAULT_PROTECTED_BRANCHES : List String := ["main", "master"]

/-- `parseProtectedBranchPatterns`: a blank input falls back to the default
`main,master` list; entries are trimmed and blank entries dropped. -/
def parseProtectedBranchPatterns (input : String) : List String :=
  let raw :=
    if (jsTrim input).length ≠ 0 then input
    else String.intercalate (",") DEFAULT_PROTECTED_BRANCHES
  (((splitOnCharL ',' raw.data).map (fun cs => jsTrim (String.mk cs))).filter
    (fun entry => entry != ""))

/-- The tail `.*seg₁.*seg₂…` of the anchored regex that `patternToRegex`
builds from a wildcard pattern: each remaining literal segment must occur,
in order, with arbitrary gaps, and the last one must end at the string's
end.  All split positions are tried, which is exactly the regex's
backtracking semantics (the escaped segments are literal). -/
def jsGlobTail : List (List Char) → List Char → Bool
  | [], r => r.isEmpty
  | seg :: rest, r =>
    (List.range (r.length + 1)).any (fun i =>
      seg.isPrefixOf (r.drop i) && jsGlobTail rest ((r.drop i).drop seg.length))

/-- `branchMatchesPattern`: falsy pattern or branch never match; otherwise
the pattern is split on `*` and tested as `^seg₀.*seg₁…segₙ$`. -/
def branchMatchesPattern (branch pattern : String) : Bool :=
  if pattern = "" || branch = "" then false
  else
    match splitOnCharL '*' pattern.data with
    | [] => branch.data.isEmpty
    | seg :: rest => seg.isPrefixOf branch.data && jsGlobTail rest (branch.data.drop seg.length)

/-- `isBranchProtected`. -/
def isBranchProtected (branch : String) (patterns : List String) : Bool :=
  branch != "" && patterns.any (fun pattern => branchMatchesPattern branch pattern)

/-- `sanitizeBranchPrefix`: default the prefix and strip trailing slashes. -/
def sanitizeBranchPre (p : String) : String :=
  let p' := if p = "" then "overweight/baseline" else p
  String.mk ((p'.data.reverse.dropWhile (fun c => c = '/')).reverse)

/-- Characters left untouched by `sanitizeBranchSuffix`'s
`/[^0-9A-Za-z._-]+/g` replacement. -/
def isBranchSafeChar (c : Char) : Bool :=
  (48 ≤ c.toNat && c.toNat ≤ 57) || (65 ≤ c.toNat && c.toNat ≤ 90) ||
  (97 ≤ c.toNat && c.toNat ≤ 122) || c = '.' || c = '_' || c = '-'

/-- Replace each maximal run of unsafe characters by a single `-`;
`inRun` records whether the previous character was part of such a run. -/
def collapseUnsafeAux (inRun : Bool) : List Char → List Char
  | [] => []
  | c :: rest =>
    if isBranchSafeChar c then c :: collapseUnsafeAux false rest
    else if inRun then collapseUnsafeAux true rest
    else '-' :: collapseUnsafeAux true rest

/-- `sanitizeBranchSuffix`. -/
def sanitizeBranchSuffix (suffix : String) : String :=
  if suffix = "" then "" else String.mk (collapseUnsafeAux false suffix.data)

/-- `buildUpdateBranchName`; `runId` stands for `github.context.runId ||
Date.now()`. -/
def buildUpdateBranchName (pre : String) (prNumber : Option ℤ)
    (currentBranch : String) (runId : ℕ) : String :=
  let suffix :=
    match prNumber with
    | some n => "pr-" ++ toString n
    | none =>
      let s := sanitizeBranchSuffix currentBranch
      if s = "" then "run-" ++ toString runId else s
  sanitizeBranchPre pre ++ "/" ++ suffix

/-- Collapse runs of dashes (the dash-run regex replacement of `flattenBranchName`). -/
def collapseDashesAux (inRun : Bool) : List Char → List Char
  | [] => []
  | c :: rest =>
    if c = '-' then
      (if inRun then collapseDashesAux true rest else '-' :: collapseDashesAux true rest)
    else c :: collapseDashesAux false rest

/-- `flattenBranchName`. -/
def flattenBranchName (branchName : String) : String :=
  String.mk (collapseDashesAux false
    (List.intercalate ['-']
      ((splitOnCharL '/' branchName.data).filter (fun seg => !seg.isEmpty))))

/-- The prefix-collision probe loop of `ensureCreatableBranchName`: does any
strict prefix of the candidate branch path already exist as a ref?  The
`refExists` oracle abstracts `octokit.rest.git.getRef` (a 404 is `false`;
other API errors are outside this model). -/
def anyPreRefExists (refExists : String → Bool) (segments : List (List Char)) : Bool :=
  (List.range (segments.length - 1)).any (fun i =>
    refExists ("heads/" ++ String.mk (List.intercalate ['/'] (segments.take (i + 1)))))

/-- `ensureCreatableBranchName` (with an authenticated octokit, as in the
baseline-update flow). -/
def ensureCreatableBranchName (refExists : String → Bool) (branchName : String) : String :=
  if branchName = "" || !(branchName.data.contains '/') then branchName
  else
    let segments := (splitOnCharL '/' branchName.data).filter (fun seg => !seg.isEmpty)
    if segments.length ≤ 1 then branchName
    else if anyPreRefExists refExists segments then flattenBranchName branchName
    else branchName

/-! ### src/action/github.js — remote API model -/

/-- An error thrown by an octokit call: HTTP status plus message. -/
structure ApiErr where
  status : ℤ
  message : String
deriving DecidableEq

/-- `resolveBaseBranch` of src/action/branch.js, with the triggering pull
request's base ref and the repository default-branch query as oracles; a
failed query degrades to the hardcoded `"main"` fallback. -/
def resolveBaseBranch (payloadPrBaseRef : Option String)
    (defaultBranch : Except ApiErr String) : String :=
  match payloadPrBaseRef with
  | some r => r
  | none =>
    match defaultBranch with
    | .ok d => d
    | .error _ => "main"

/-- Substring containment (model of `String.prototype.includes`). -/
def containsSubstr : List Char → List Char → Bool
  | sub, [] => sub.isEmpty
  | sub, c :: tail => sub.isPrefixOf (c :: tail) || containsSubstr sub tail

/-- The retry condition of `createOrUpdateFileContents`:
`error.status === 404 && error.message?.includes("Branch")`. -/
def isBranchNotFoundError (e : ApiErr) : Bool :=
  e.status == 404 && containsSubstr ("Branch".data) e.message.data

def cofcMaxRetries : ℕ := 5

def cofcBaseDelayMs : ℕ := 1000

/-- Observable steps of the file-commit retry loop. -/
inductive CommitEvent where
  | putAttempt (attempt : ℕ)
  | ensureBranch
  | sleep (ms : ℕ)
deriving DecidableEq

inductive CommitOutcome where
  | success
  | fatal (e : ApiErr)
deriving DecidableEq

/-- The `for (let attempt = 0; attempt < maxRetries; attempt++)` loop of
`createOrUpdateFileContents`.  `put attempt` is the outcome of the
`attempt`-th `octokit.rest.repos.createOrUpdateFileContents` call; `fuel`
is the number of iterations the loop may still run; `lastError` carries the
`lastError` variable into the post-loop `if (lastError) throw lastError`. -/
def cofcGo (put : ℕ → Except ApiErr Unit) (hasEnsure : Bool) :
    ℕ → ℕ → Option ApiErr → List CommitEvent × CommitOutcome
  | _attempt, 0, lastError =>
    ([], match lastError with
         | some e => .fatal e
         | none => .success)
  | attempt, fuel + 1, _lastError =>
    match put attempt with
    | .ok _ => ([.putAttempt attempt], .success)
    | .error e =>
      if isBranchNotFoundError e && decide (attempt < cofcMaxRetries - 1) then
        let delay := cofcBaseDelayMs * 2 ^ attempt
        let evts := [CommitEvent.putAttempt attempt] ++
          (if hasEnsure then [CommitEvent.ensureBranch] else []) ++
          [CommitEvent.sleep delay]
        let rest := cofcGo put hasEnsure (attempt + 1) fuel (some e)
        (evts ++ rest.1, rest.2)
      else
        ([.putAttempt attempt], .fatal e)

/-- `createOrUpdateFileContents` of src/action/github.js as an event trace
plus outcome.  `hasEnsure` records whether an `ensureBranchExists` callback
was supplied (it is, in the action flow). -/
def createOrUpdateFileContents (put : ℕ → Except ApiErr Unit) (hasEnsure : Bool) :
    List CommitEvent × CommitOutcome :=
  cofcGo put hasEnsure 0 cofcMaxRetries none

/-! ### src/action/baseline.js — snapshot canonicalization -/

/-- One summary row as built by `buildSummaryRows` (the fields the baseline
machinery reads; byte counts are integers). -/
structure SummaryRow where
  label : String
  file : String
  tester : String
  size : String
  sizeBytes : ℤ
  limit : String
  limitBytes : ℤ
  diff : String
  diffBytes : ℤ
  status : String
  error : Option String
deriving DecidableEq

/-- One persisted baseline record: exactly the seven keys picked by
`buildBaselineSnapshot`, in their construction order. -/
structure BaselineEntry where
  label : String
  file : String
  tester : String
  size : String
  sizeBytes : ℤ
  limit : String
  limitBytes : ℤ
deriving DecidableEq

/-- The key-picking `map` of `buildBaselineSnapshot`. -/
def toBaselineEntry (row : SummaryRow) : BaselineEntry :=
  { label := row.label
    file := row.file
    tester := row.tester
    size := row.size
    sizeBytes := row.sizeBytes
    limit := row.limit
    limitBytes := row.limitBytes }

/-- Three-way lexicographic comparison by code point. -/
def cmpChars : List Char → List Char → ℤ
  | [], [] => 0
  | [], _ :: _ => -1
  | _ :: _, [] => 1
  | a :: as, b :: bs =>
    if a.toNat < b.toNat then -1
    else if b.toNat < a.toNat then 1
    else cmpChars as bs

/-- Model of `String.prototype.localeCompare` for the plain ASCII file
paths this pipeline produces: code-point comparison.  (Locale tailoring of
exotic strings is outside the model; on equal strings every locale agrees
on `0`.) -/
def jsLocaleCompare (a b : String) : ℤ :=
  cmpChars a.data b.data

/-- Stable insertion of `x` after every element that does not compare
strictly greater: together with `sortByFile` this reproduces the output of
the stable `Array.prototype.sort` with the `localeCompare` comparator. -/
def insertByFile (x : BaselineEntry) : List BaselineEntry → List BaselineEntry
  | [] => [x]
  | y :: ys =>
    if jsLocaleCompare y.file x.file ≤ 0 then y :: insertByFile x ys
    else x :: y :: ys

def sortByFile (l : List BaselineEntry) : List BaselineEntry :=
  l.foldl (fun acc x => insertByFile x acc) []

/-- `buildBaselineSnapshot`: pick the seven keys, then sort by `file`. -/
def buildBaselineSnapshot (rows : List SummaryRow) : List BaselineEntry :=
  sortByFile (rows.map toBaselineEntry)

/-- Lower-case hexadecimal digit (for `\u00xx` escapes). -/
def hexDigit (n : ℕ) : Char :=
  if n < 10 then Char.ofNat (48 + n) else Char.ofNat (87 + n)

/-- `JSON.stringify`'s escaping of one character inside a string literal. -/
def escapeJsonChar (c : Char) : List Char :=
  if c = '"' then ['\\', '"']
  else if c = '\\' then ['\\', '\\']
  else if c = '\x08' then ['\\', 'b']
  else if c = '\t' then ['\\', 't']
  else if c = '\n' then ['\\', 'n']
  else if c = '\x0c' then ['\\', 'f']
  else if c = '\x0d' then ['\\', 'r']
  else if c.toNat < 32 then
    ['\\', 'u', '0', '0', hexDigit (c.toNat / 16), hexDigit (c.toNat % 16)]
  else [c]

/-- A JSON string literal. -/
def jsonString (s : String) : String :=
  "\"" ++ String.mk ((s.data.map escapeJsonChar).flatten) ++ "\""

/-- One entry of `JSON.stringify(snapshot, null, 2)`: an object at array
depth (indent 2), fields at indent 4, keys in pick order. -/
def baselineEntryJson (e : BaselineEntry) : String :=
  "  \x7b\n    \"label\": " ++ jsonString e.label ++
  ",\n    \"file\": " ++ jsonString e.file ++
  ",\n    \"tester\": " ++ jsonString e.tester ++
  ",\n    \"size\": " ++ jsonString e.size ++
  ",\n    \"sizeBytes\": " ++ toString e.sizeBytes ++
  ",\n    \"limit\": " ++ jsonString e.limit ++
  ",\n    \"limitBytes\": " ++ toString e.limitBytes ++
  "\n  \x7d"

/-- `serializeBaselineSnapshot`: `JSON.stringify(buildBaselineSnapshot(rows),
null, 2)`. -/
def serializeBaselineSnapshot (rows : List SummaryRow) : String :=
  let entries := buildBaselineSnapshot rows
  if entries.isEmpty then "[]"
  else "[\n" ++ String.intercalate (",\n") (entries.map baselineEntryJson) ++ "\n]"

/-- `getBaselineUpdateInfo` in the calling shape `handleBaselineUpdate`
uses: `previousContent` is always supplied (the `raw` of
`readBaselineState`, `none` standing for JS `null` when the local baseline
file was unreadable), so the filesystem fallback branch is not taken. -/
def getBaselineUpdateInfo (rows : List SummaryRow) (previousContent : Option String) :
    Bool × String :=
  let nextContent := serializeBaselineSnapshot rows
  (match previousContent with
   | none => true
   | some prev => prev != nextContent, nextContent)

/-! ### src/action/index.js — the baseline-update state machine (the
complete PR-reuse variant, which the repository's spec designates as the
intended design superseding the earlier direct-push variants) -/

/-- Remote or local mutations the update flow can perform.  Every mutating
call site of `handleBaselineUpdate` and its callees maps to one of these. -/
inductive RemoteEffect where
  | createBranch (name base : String)
  | commitFilePut (branch path : String) (attempt : ℕ)
  | createPr (head base : String)
  | writeLocalBaseline (path content : String)
deriving DecidableEq

inductive UpdateOutcome where
  | skippedUpToDate
  | skippedProtected
  | completed (prNumber : ℤ)
  | failed (msg : String)
deriving DecidableEq

/-- The ambient context and remote oracles of one `handleBaselineUpdate`
run.  Read-only API responses are fields; 404 "not found" responses are
already folded into the `Option` results, so an `Except.error` is a
non-404 failure. -/
structure UpdateEnv where
  branchName : String
  protectedBranchesInput : String
  prTitleInput : String
  prBodyInput : String
  branchPreInput : String
  payloadPrNumber : Option ℤ
  payloadPrBaseRef : Option String
  defaultBranch : Except ApiErr String
  findPrNumber : Except ApiErr (Option ℤ)
  refExists : String → Bool
  existingFileSha : Except ApiErr (Option String)
  putFile : ℕ → Except ApiErr Unit
  existingPrNumber : Option ℤ
  createdPrNumber : ℤ
  runId : ℕ
  workspaceRelBaselinePath : String

/-- `ensureUpdateBranchExists` of src/action/git.js: reuse the branch when
the ref exists, otherwise create it from the base branch's tip.  The base
ref fetch and the post-create visibility retries are read-only and
abstracted (the eventual-consistency race is modelled at the file-commit
retry loop instead). -/
def ensureUpdateBranchExistsM (refExists : String → Bool)
    (branchName baseBranch : String) : List RemoteEffect × Bool :=
  if refExists ("heads/" ++ branchName) then ([], true)
  else ([RemoteEffect.createBranch branchName baseBranch], false)

/-- The effective current branch of `handleBaselineUpdate`:
`getBranchName() || "unknown"`. -/
def effectiveBranchName (env : UpdateEnv) : String :=
  if env.branchName = "" then "unknown" else env.branchName

/-- `handleBaselineUpdate` of src/action/index.js, returning the list of
mutations performed and the final outcome. -/
def handleBaselineUpdate (env : UpdateEnv) (baselinePath : String)
    (rows : List SummaryRow) (baselineFileContent : Option String) :
    List RemoteEffect × UpdateOutcome :=
  let info := getBaselineUpdateInfo rows baselineFileContent
  let needsUpdate := info.1
  let content := info.2
  let currentBranch := effectiveBranchName env
  let protectedPatterns := parseProtectedBranchPatterns env.protectedBranchesInput
  let branchIsProtected := isBranchProtected currentBranch protectedPatterns
  if !needsUpdate then ([], .skippedUpToDate)
  else if branchIsProtected then ([], .skippedProtected)
  else
    let baseBranch := resolveBaseBranch env.payloadPrBaseRef env.defaultBranch
    let prIdentifier :=
      match env.payloadPrNumber with
      | some n => some n
      | none =>
        match env.findPrNumber with
        | .ok r => r
        | .error _ => none
    let branchPre := if env.branchPreInput = "" then "overweight/baseline" else env.branchPreInput
    let updateBranchName0 := buildUpdateBranchName branchPre prIdentifier currentBranch env.runId
    let updateBranchName := ensureCreatableBranchName env.refExists updateBranchName0
    let repoRelativePath := env.workspaceRelBaselinePath
    let ensured := ensureUpdateBranchExistsM env.refExists updateBranchName baseBranch
    match env.existingFileSha with
    | .error e => (ensured.1, .failed e.message)
    | .ok _existingSha =>
      let writeEffs := [RemoteEffect.writeLocalBaseline baselinePath content]
      let committed := createOrUpdateFileContents env.putFile true
      let commitEffs := committed.1.filterMap (fun ev =>
        match ev with
        | .putAttempt i => some (RemoteEffect.commitFilePut updateBranchName repoRelativePath i)
        | _ => none)
      match committed.2 with
      | .fatal e => (ensured.1 ++ writeEffs ++ commitEffs, .failed e.message)
      | .success =>
        match env.existingPrNumber with
        | some n => (ensured.1 ++ writeEffs ++ commitEffs, .completed n)
        | none =>
          (ensured.1 ++ writeEffs ++ commitEffs ++
            [RemoteEffect.createPr updateBranchName baseBranch],
           .completed env.createdPrNumber)

/-- How the `if (baselinePath)` block of `runAction` dispatches the
baseline update. -/
inductive BaselineDispatch where
  | noBaselinePath
  | skippedFailures
  | skippedFlagOff
  | fatalMissingToken
  | update (effects : List RemoteEffect) (outcome : UpdateOutcome)
deriving DecidableEq

/-- The baseline-update gate of `runAction`: failures first, then the
update flag, then the credential check, and only then the update flow. -/
def runActionBaselineStep (hasBaselinePath hasFailures updateBaseline hasToken : Bool)
    (env : UpdateEnv) (baselinePath : String) (rows : List SummaryRow)
    (baselineFileContent : Option String) : BaselineDispatch :=
  if !hasBaselinePath then .noBaselinePath
  else if hasFailures then .skippedFailures
  else if !updateBaseline then .skippedFlagOff
  else if !hasToken then .fatalMissingToken
  else
    let r := handleBaselineUpdate env baselinePath rows baselineFileContent
    .update r.1 r.2

/-- The mutations a dispatch performs. -/
def dispatchEffects : BaselineDispatch → List RemoteEffect
  | .update effects _ => effects
  | _ => []

/-- A generic update environment for concrete instantiations. -/
def sampleUpdateEnv : UpdateEnv :=
  { branchName := "feature/x"
    protectedBranchesInput := ""
    prTitleInput := ""
    prBodyInput := ""
    branchPreInput := ""
    payloadPrNumber := none
    payloadPrBaseRef := none
    defaultBranch := .ok "main"
    findPrNumber := .ok none
    refExists := fun _ => false
    existingFileSha := .ok none
    putFile := fun _ => .ok ()
    existingPrNumber := none
    createdPrNumber := 7
    runId := 1
    workspaceRelBaselinePath := "report.json" }

/-- The sample environment running on the default-protected `main` branch. -/
def mainBranchUpdateEnv : UpdateEnv :=
  { sampleUpdateEnv with branchName := "main" }

/-! ### Projections of commit retry traces -/

def putsCount (evts : List CommitEvent) : ℕ :=
  (evts.filter (fun ev => match ev with | .putAttempt _ => true | _ => false)).length

def sleepsOf (evts : List CommitEvent) : List ℕ :=
  evts.filterMap (fun ev => match ev with | .sleep d => some d | _ => none)

def ensuresCount (evts : List CommitEvent) : ℕ :=
  (evts.filter (fun ev => match ev with | .ensureBranch => true | _ => false)).length

/-- The events of `n` consecutive retried attempts starting at attempt `a`:
each contributes its put, the branch re-verification (when the callback was
supplied) and the backoff sleep of `baseDelay * 2 ^ attempt`. -/
def retryTrace (he : Bool) (a n : ℕ) : List CommitEvent :=
  ((List.range' a n).map (fun j =>
    [CommitEvent.putAttempt j] ++ (if he then [CommitEvent.ensureBranch] else []) ++
    [CommitEvent.sleep (cofcBaseDelayMs * 2 ^ j)])).flatten

/-- An oracle whose every attempt fails with a non-retryable server error. -/
def alwaysServerErr : ℕ → Except ApiErr Unit :=
  fun _ => .error { status := 500, message := "Internal" }


/-- A sample check environment measuring every file at 100 bytes. -/
def c4Env : CheckEnv :=
  { resolveFiles := fun _ => [{ absolutePath := "/r/a.js", relativePath := "a.js" }]
    measure := fun _ _ => some 100
    formatBytes := fun _ => "100 B"
    formatDiff := fun _ => "0 B"
    customTesters := [] }

def c4Rule : FileRule :=
  { pattern := "a.js", label := "a.js", compression := "none", maxBytes := 100,
    maxFormatted := "100 B" }

def c4Cfg : NormalizedConfigM :=
  { root := "/r", defaultCompression := "gzip", files := [c4Rule] }

def c4Result : CheckResult :=
  { pattern := "a.js", label := "a.js", filePath := "a.js", absolutePath := some "/r/a.js",
    tester := "none", testerLabel := "raw", size := some 100, sizeFormatted := "100 B",
    maxSizeFormatted := "100 B", maxSize := 100, diff := some 0, diffFormatted := "0 B",
    passed := true, error := none }

def c4Out : CheckRun :=
  { results := [c4Result]
    stats := { files := 1, failures := [], hasFailures := false, hasErrors := false } }

/-- The sample environment where no pattern matches any file. -/
def c5Env : CheckEnv :=
  { c4Env with resolveFiles := fun _ => [] }

def c5Out : CheckRun :=
  { results := [buildMissingResult c4Rule]
    stats := { files := 1, failures := [buildMissingResult c4Rule],
               hasFailures := true, hasErrors := true } }


/-- A trivial discovery environment with no files at all. -/
def unitLoadEnv : LoadEnv Unit Unit :=
  { fileExists := fun _ => false
    readJson := fun _ => .error "unreadable"
    overweightField := fun _ => none
    ensureArrayConfig := fun c => c
    normalize := fun _ _ => .ok () }


/-- Two summary rows sharing the same `file` key but differing elsewhere,
and a third row with a distinct file. -/
def rowXA : SummaryRow :=
  { label := "x", file := "a", tester := "gzip", size := "1 B", sizeBytes := 1,
    limit := "2 B", limitBytes := 2, diff := "-1 B", diffBytes := -1,
    status := "pass", error := none }

def rowYA : SummaryRow :=
  { rowXA with label := "y" }

def rowB : SummaryRow :=
  { rowXA with file := "b" }


/-- A raw file entry with a negative numeric budget. -/
def negRawEntry : RawFileEntry :=
  { path := "a.js", maxSize := .num ((-5 : ℤ) : ℚ), compression := none, label := none }

/-! ## Theorems -/

/-- Evaluation helper for `parseSize` on a string that matches the size
regex with a recognized unit. -/
theorem parseSize_str_eval (value : String) (m : SizeMatch) (u : String)
    (factor : ℕ) (n : ℤ)
    (hm : matchSizeFormat (normalizeSizeString value).data = some m)
    (hu : (if m.unitChars.isEmpty then "b" else String.mk m.unitChars) = u)
    (hf : UNIT_FACTORS.lookup u = some factor)
    (hn : jsRound (matchedNumber m * (factor : ℚ)) = n) :
    parseSize (.str value) = .ok (n : ℚ) := by
  simp only [parseSize, hm, hu, hf, hn]

/-- Claim C6: `parseSize` returns finite numbers unchanged; strings are
trimmed, lowercased and stripped of whitespace, parsed as
`<number>[<unit>]` with decimal units scaling by powers of 1000 and binary
units by powers of 1024 (unitless meaning bytes), and rounded to the
nearest integer; `parseSize("10kb") = 10000`, `parseSize("2MiB") =
2097152`, `parseSize(250) = 250`, and `parseSize("abc")` fails. -/
theorem parseSize_spec :
    (∀ x : ℚ, parseSize (.num x) = .ok x) ∧
    parseSize (.str ("10kb")) = .ok 10000 ∧
    parseSize (.str ("2MiB")) = .ok 2097152 ∧
    parseSize (.num 250) = .ok 250 ∧
    (∃ e, parseSize (.str ("abc")) = .error e) ∧
    parseSize (.str (" 10 kB ")) = .ok 10000 ∧
    parseSize (.str ("2kib")) = .ok 2048 ∧
    parseSize (.str ("250")) = .ok 250 ∧
    parseSize (.str ("2.5b")) = .ok 3 := by
  have hd10 : digitsToNat (['1', '0']) = 10 := by decide
  have hd2 : digitsToNat (['2']) = 2 := by decide
  have hd250 : digitsToNat (['2', '5', '0']) = 250 := by decide
  have hd5 : digitsToNat (['5']) = 5 := by decide
  have hd0 : digitsToNat ([] : List Char) = 0 := by decide
  refine ⟨fun x => rfl, ?_, ?_, rfl, ⟨_, rfl⟩, ?_, ?_, ?_, ?_⟩
  · refine parseSize_str_eval _ ⟨false, ['1', '0'], [], ['k', 'b']⟩ ("kb") 1000 10000
      (by decide) (by decide) (by decide) ?_
    simp only [matchedNumber, jsRound]
    norm_num [hd10, hd0]
  · refine parseSize_str_eval _ ⟨false, ['2'], [], ['m', 'i', 'b']⟩ ("mib") 1048576 2097152
      (by decide) (by decide) (by decide) ?_
    simp only [matchedNumber, jsRound]
    norm_num [hd2, hd0]
  · refine parseSize_str_eval _ ⟨false, ['1', '0'], [], ['k', 'b']⟩ ("kb") 1000 10000
      (by decide) (by decide) (by decide) ?_
    simp only [matchedNumber, jsRound]
    norm_num [hd10, hd0]
  · refine parseSize_str_eval _ ⟨false, ['2'], [], ['k', 'i', 'b']⟩ ("kib") 1024 2048
      (by decide) (by decide) (by decide) ?_
    simp only [matchedNumber, jsRound]
    norm_num [hd2, hd0]
  · refine parseSize_str_eval _ ⟨false, ['2', '5', '0'], [], []⟩ ("b") 1 250
      (by decide) (by decide) (by decide) ?_
    simp only [matchedNumber, jsRound]
    norm_num [hd250, hd0]
  · refine parseSize_str_eval _ ⟨false, ['2'], ['5'], ['b']⟩ ("b") 1 3
      (by decide) (by decide) (by decide) ?_
    simp only [matchedNumber, jsRound]
    norm_num [hd2, hd5]

/-- Claim C1: when the canonical serialization of the new snapshot equals
the existing baseline content byte for byte, the reconciliation step stops
up to date: no branch creation, no file commit, no pull request, and no
local write. -/
theorem baseline_idempotent_noop (env : UpdateEnv) (baselinePath : String)
    (rows : List SummaryRow) (prev : Option String)
    (h : prev = some (serializeBaselineSnapshot rows)) :
    handleBaselineUpdate env baselinePath rows prev = ([], .skippedUpToDate) := by
  subst h
  simp [handleBaselineUpdate, getBaselineUpdateInfo]

/-- Witness for C1 at a concrete input: an empty snapshot against its own
serialization `"[]"`. -/
theorem baseline_idempotent_noop_witness :
    handleBaselineUpdate sampleUpdateEnv ("b.json") [] (some ("[]")) =
      ([], .skippedUpToDate) :=
  baseline_idempotent_noop sampleUpdateEnv ("b.json") [] (some ("[]")) rfl

/-- Claim C2: a run with failures never reaches the baseline-update flow:
whatever the update flag, token or protection settings, the dispatch
performs no effect (no local write, no branch, no commit, no PR). -/
theorem failing_run_no_baseline_write (hasBaselinePath updateBaseline hasToken : Bool)
    (env : UpdateEnv) (baselinePath : String) (rows : List SummaryRow)
    (prev : Option String) :
    dispatchEffects (runActionBaselineStep hasBaselinePath true updateBaseline hasToken
      env baselinePath rows prev) = [] ∧
    (runActionBaselineStep hasBaselinePath true updateBaseline hasToken
        env baselinePath rows prev = .noBaselinePath ∨
     runActionBaselineStep hasBaselinePath true updateBaseline hasToken
        env baselinePath rows prev = .skippedFailures) := by
  cases hasBaselinePath <;> simp [runActionBaselineStep, dispatchEffects]

/-- Claim C3: a current branch matching one of the configured protected
patterns (default `main,master`) skips the baseline update entirely: no
effects, an explicit skip outcome when the snapshot differs, and never a
fatal outcome. -/
theorem protected_branch_skips_update (env : UpdateEnv) (baselinePath : String)
    (rows : List SummaryRow) (prev : Option String)
    (hprot : isBranchProtected (effectiveBranchName env)
      (parseProtectedBranchPatterns env.protectedBranchesInput) = true) :
    parseProtectedBranchPatterns ("") = ["main", "master"] ∧
    (handleBaselineUpdate env baselinePath rows prev).1 = [] ∧
    ((getBaselineUpdateInfo rows prev).1 = true →
      handleBaselineUpdate env baselinePath rows prev = ([], .skippedProtected)) ∧
    (∀ msg, (handleBaselineUpdate env baselinePath rows prev).2 ≠ .failed msg) := by
  have hmain : handleBaselineUpdate env baselinePath rows prev = ([], .skippedUpToDate) ∨
      handleBaselineUpdate env baselinePath rows prev = ([], .skippedProtected) := by
    cases hnu : (getBaselineUpdateInfo rows prev).1 with
    | false => exact Or.inl (by simp [handleBaselineUpdate, hnu])
    | true => exact Or.inr (by simp [handleBaselineUpdate, hnu, hprot])
  refine ⟨rfl, ?_, ?_, ?_⟩
  · rcases hmain with h | h <;> simp [h]
  · intro hnu
    cases hmain with
    | inl h => simp [handleBaselineUpdate, hnu, hprot]
    | inr h => exact h
  · intro msg
    rcases hmain with h | h <;> simp [h]

/-- Witness for C3 at a concrete input: branch `main` against the default
pattern list, with a differing snapshot (no previous baseline). -/
theorem protected_branch_skips_update_witness :
    (handleBaselineUpdate mainBranchUpdateEnv ("b.json") [] none).1 = [] ∧
    handleBaselineUpdate mainBranchUpdateEnv ("b.json") [] none =
      ([], .skippedProtected) := by
  have h := protected_branch_skips_update mainBranchUpdateEnv ("b.json") [] none (by decide)
  exact ⟨h.2.1, h.2.2.1 (by decide)⟩

theorem putsCount_append (a b : List CommitEvent) :
    putsCount (a ++ b) = putsCount a + putsCount b := by
  simp [putsCount, List.filter_append]

theorem sleepsOf_append (a b : List CommitEvent) :
    sleepsOf (a ++ b) = sleepsOf a ++ sleepsOf b := by
  simp [sleepsOf]

theorem ensuresCount_append (a b : List CommitEvent) :
    ensuresCount (a ++ b) = ensuresCount a + ensuresCount b := by
  simp [ensuresCount, List.filter_append]

theorem retryTrace_zero (he : Bool) (a : ℕ) : retryTrace he a 0 = [] := rfl

theorem retryTrace_succ (he : Bool) (a n : ℕ) :
    retryTrace he a (n + 1) =
      ([CommitEvent.putAttempt a] ++ (if he then [CommitEvent.ensureBranch] else []) ++
        [CommitEvent.sleep (cofcBaseDelayMs * 2 ^ a)]) ++ retryTrace he (a + 1) n := by
  simp [retryTrace, List.range'_succ]

theorem putsCount_retryTrace (he : Bool) (a n : ℕ) :
    putsCount (retryTrace he a n) = n := by
  induction n generalizing a with
  | zero => rfl
  | succ k ih =>
    rw [retryTrace_succ, putsCount_append, ih]
    cases he <;> simp [putsCount] <;> omega

theorem sleepsOf_retryTrace (he : Bool) (a n : ℕ) :
    sleepsOf (retryTrace he a n) = (List.range' a n).map (fun j => cofcBaseDelayMs * 2 ^ j) := by
  induction n generalizing a with
  | zero => rfl
  | succ k ih =>
    rw [retryTrace_succ, sleepsOf_append, ih, List.range'_succ]
    cases he <;> simp [sleepsOf]

theorem ensuresCount_retryTrace (he : Bool) (a n : ℕ) :
    ensuresCount (retryTrace he a n) = if he then n else 0 := by
  induction n generalizing a with
  | zero => cases he <;> rfl
  | succ k ih =>
    rw [retryTrace_succ, ensuresCount_append, ih]
    cases he <;> simp [ensuresCount] <;> omega

theorem cofcGo_putsCount_le (put : ℕ → Except ApiErr Unit) (he : Bool) :
    ∀ (fuel a : ℕ) (le : Option ApiErr), putsCount (cofcGo put he a fuel le).1 ≤ fuel := by
  intro fuel
  induction fuel with
  | zero => intro a le; simp [cofcGo, putsCount]
  | succ k ih =>
    intro a le
    simp only [cofcGo]
    cases hput : put a with
    | ok u =>
      simp [putsCount]
    | error e =>
      by_cases hc : (isBranchNotFoundError e && decide (a < cofcMaxRetries - 1)) = true
      · simp only [hc, if_true]
        have hb : putsCount ([CommitEvent.putAttempt a] ++
            (if he then [CommitEvent.ensureBranch] else []) ++
            [CommitEvent.sleep (cofcBaseDelayMs * 2 ^ a)]) = 1 := by
          cases he <;> rfl
        rw [putsCount_append, hb]
        have := ih (a + 1) (some e)
        omega
      · simp only [Bool.not_eq_true] at hc
        simp [hc, putsCount]

theorem cofcGo_stop (put : ℕ → Except ApiErr Unit) (he : Bool) :
    ∀ (fuel a : ℕ) (le : Option ApiErr) (i : ℕ),
      a + fuel = cofcMaxRetries → a ≤ i → i < cofcMaxRetries →
      (∀ j, a ≤ j → j < i → ∃ ej, put j = .error ej ∧ isBranchNotFoundError ej = true) →
      ((put i = .ok () →
         cofcGo put he a fuel le =
           (retryTrace he a (i - a) ++ [CommitEvent.putAttempt i], .success)) ∧
       (∀ e, put i = .error e →
         (isBranchNotFoundError e = false ∨ i = cofcMaxRetries - 1) →
         cofcGo put he a fuel le =
           (retryTrace he a (i - a) ++ [CommitEvent.putAttempt i], .fatal e))) := by
  intro fuel
  induction fuel with
  | zero =>
    intro a le i hsum hai hi hpre
    exfalso
    unfold cofcMaxRetries at hsum hi
    omega
  | succ k ih =>
    intro a le i hsum hai hi hpre
    rcases eq_or_lt_of_le hai with heq | hlt
    · subst heq
      constructor
      · intro hok
        simp [cofcGo, hok, Nat.sub_self, retryTrace_zero]
      · intro e herr hcond
        have hcfalse : (isBranchNotFoundError e && decide (a < cofcMaxRetries - 1)) = false := by
          rcases hcond with h | h
          · simp [h]
          · subst h
            simp
        simp [cofcGo, herr, hcfalse, Nat.sub_self, retryTrace_zero]
    · obtain ⟨ea, hea, hbea⟩ := hpre a le_rfl hlt
      have ha4 : a < cofcMaxRetries - 1 := by
        unfold cofcMaxRetries at *
        omega
      have hcond : (isBranchNotFoundError ea && decide (a < cofcMaxRetries - 1)) = true := by
        simp [hbea, ha4]
      have hrec := ih (a + 1) (some ea) i (by omega) (by omega) hi
        (fun j hj1 hj2 => hpre j (by omega) hj2)
      have hsub : i - a = (i - (a + 1)) + 1 := by omega
      constructor
      · intro hok
        have h1 := hrec.1 hok
        simp only [cofcGo, hea, hcond, if_true]
        rw [h1, hsub, retryTrace_succ]
        simp
      · intro e herr hc
        have h1 := hrec.2 e herr hc
        simp only [cofcGo, hea, hcond, if_true]
        rw [h1, hsub, retryTrace_succ]
        simp

/-- Claim C9: the file-commit step makes at most 5 attempts; a non-retryable
error (anything but a 404 naming the branch) propagates immediately after its
attempt; exhausting the budget on branch-not-found errors surfaces the last
error as fatal; the sleeps between attempts follow 1s exponential doubling,
with the branch re-verified between attempts. -/
theorem commit_retry_policy (put : ℕ → Except ApiErr Unit) (he : Bool) :
    putsCount (createOrUpdateFileContents put he).1 ≤ cofcMaxRetries ∧
    (∀ i e, i < cofcMaxRetries → put i = .error e → isBranchNotFoundError e = false →
      (∀ j, j < i → ∃ ej, put j = .error ej ∧ isBranchNotFoundError ej = true) →
      (createOrUpdateFileContents put he).2 = .fatal e ∧
      putsCount (createOrUpdateFileContents put he).1 = i + 1 ∧
      sleepsOf (createOrUpdateFileContents put he).1 =
        (List.range i).map (fun j => cofcBaseDelayMs * 2 ^ j) ∧
      (he = true → ensuresCount (createOrUpdateFileContents put he).1 = i)) ∧
    ((∀ i, i < cofcMaxRetries → ∃ e, put i = .error e ∧ isBranchNotFoundError e = true) →
      ∃ elast, put (cofcMaxRetries - 1) = .error elast ∧
        (createOrUpdateFileContents put he).2 = .fatal elast ∧
        putsCount (createOrUpdateFileContents put he).1 = cofcMaxRetries ∧
        sleepsOf (createOrUpdateFileContents put he).1 =
          (List.range (cofcMaxRetries - 1)).map (fun j => cofcBaseDelayMs * 2 ^ j)) ∧
    (∀ i, i < cofcMaxRetries → put i = .ok () →
      (∀ j, j < i → ∃ ej, put j = .error ej ∧ isBranchNotFoundError ej = true) →
      (createOrUpdateFileContents put he).2 = .success ∧
      putsCount (createOrUpdateFileContents put he).1 = i + 1 ∧
      (he = true → ensuresCount (createOrUpdateFileContents put he).1 = i)) := by
  refine ⟨cofcGo_putsCount_le put he cofcMaxRetries 0 none, ?_, ?_, ?_⟩
  · intro i e hi herr hnf hpre
    have hstop := (cofcGo_stop put he cofcMaxRetries 0 none i rfl (Nat.zero_le i) hi
      (fun j _ hji => hpre j hji)).2 e herr (Or.inl hnf)
    have hE : createOrUpdateFileContents put he =
        (retryTrace he 0 i ++ [CommitEvent.putAttempt i], .fatal e) := by
      simpa [createOrUpdateFileContents] using hstop
    refine ⟨by rw [hE], ?_, ?_, ?_⟩
    · rw [hE, putsCount_append, putsCount_retryTrace]
      rfl
    · rw [hE]
      show sleepsOf (retryTrace he 0 i ++ [CommitEvent.putAttempt i]) = _
      rw [sleepsOf_append, sleepsOf_retryTrace, List.range_eq_range']
      simp [sleepsOf]
    · intro hhe
      subst hhe
      rw [hE, ensuresCount_append, ensuresCount_retryTrace]
      rfl
  · intro hall
    obtain ⟨e4, he4, _⟩ := hall (cofcMaxRetries - 1) (by decide)
    have hstop := (cofcGo_stop put he cofcMaxRetries 0 none (cofcMaxRetries - 1) rfl
      (Nat.zero_le _) (by decide)
      (fun j _ hji => (hall j (by unfold cofcMaxRetries at *; omega)).imp
        (fun ej h => ⟨h.1, h.2⟩))).2 e4 he4 (Or.inr rfl)
    have hE : createOrUpdateFileContents put he =
        (retryTrace he 0 (cofcMaxRetries - 1) ++ [CommitEvent.putAttempt (cofcMaxRetries - 1)],
          .fatal e4) := by
      simpa [createOrUpdateFileContents] using hstop
    refine ⟨e4, he4, by rw [hE], ?_, ?_⟩
    · rw [hE, putsCount_append, putsCount_retryTrace]
      rfl
    · rw [hE]
      show sleepsOf (retryTrace he 0 (cofcMaxRetries - 1) ++ _) = _
      rw [sleepsOf_append, sleepsOf_retryTrace, List.range_eq_range']
      simp [sleepsOf]
  · intro i hi hok hpre
    have hstop := (cofcGo_stop put he cofcMaxRetries 0 none i rfl (Nat.zero_le i) hi
      (fun j _ hji => hpre j hji)).1 hok
    have hE : createOrUpdateFileContents put he =
        (retryTrace he 0 i ++ [CommitEvent.putAttempt i], .success) := by
      simpa [createOrUpdateFileContents] using hstop
    refine ⟨by rw [hE], ?_, ?_⟩
    · rw [hE, putsCount_append, putsCount_retryTrace]
      rfl
    · intro hhe
      subst hhe
      rw [hE, ensuresCount_append, ensuresCount_retryTrace]
      rfl

/-- Witness for C9 at a concrete input: a non-retryable 500 on the first
attempt is fatal immediately, after exactly one put. -/
theorem commit_retry_policy_witness :
    (createOrUpdateFileContents alwaysServerErr true).2 =
      .fatal { status := 500, message := "Internal" } ∧
    putsCount (createOrUpdateFileContents alwaysServerErr true).1 = 1 := by
  have h := (commit_retry_policy alwaysServerErr true).2.1 0
    { status := 500, message := "Internal" } (by decide) rfl (by decide)
    (fun j hj => absurd hj (Nat.not_lt_zero j))
  exact ⟨h.1, h.2.1⟩

theorem exceptMapM_ok_mem_src {α β ε : Type} (f : α → Except ε β) :
    ∀ (l : List α) (ys : List β), exceptMapM f l = .ok ys → ∀ y ∈ ys, ∃ x ∈ l, f x = .ok y := by
  intro l
  induction l with
  | nil =>
    intro ys h y hy
    simp only [exceptMapM, Except.ok.injEq] at h
    subst h
    simp at hy
  | cons x xs ih =>
    intro ys h y hy
    simp only [exceptMapM] at h
    cases hfx : f x with
    | error e => rw [hfx] at h; exact absurd h (by simp)
    | ok y0 =>
      rw [hfx] at h
      cases hrec : exceptMapM f xs with
      | error e => rw [hrec] at h; exact absurd h (by simp)
      | ok ys0 =>
        rw [hrec] at h
        simp only [Except.ok.injEq] at h
        subst h
        rcases List.mem_cons.mp hy with rfl | hmem
        · exact ⟨x, List.mem_cons_self x xs, hfx⟩
        · obtain ⟨x', hx', hfx'⟩ := ih ys0 hrec y hmem
          exact ⟨x', List.mem_cons_of_mem x hx', hfx'⟩

theorem exceptMapM_ok_of_mem {α β ε : Type} (f : α → Except ε β) :
    ∀ (l : List α) (ys : List β), exceptMapM f l = .ok ys → ∀ x ∈ l, ∃ y ∈ ys, f x = .ok y := by
  intro l
  induction l with
  | nil => intro ys _ x hx; simp at hx
  | cons x xs ih =>
    intro ys h x' hx'
    simp only [exceptMapM] at h
    cases hfx : f x with
    | error e => rw [hfx] at h; exact absurd h (by simp)
    | ok y0 =>
      rw [hfx] at h
      cases hrec : exceptMapM f xs with
      | error e => rw [hrec] at h; exact absurd h (by simp)
      | ok ys0 =>
        rw [hrec] at h
        simp only [Except.ok.injEq] at h
        subst h
        rcases List.mem_cons.mp hx' with rfl | hmem
        · exact ⟨y0, List.mem_cons_self y0 ys0, hfx⟩
        · obtain ⟨y', hy', hfy'⟩ := ih ys0 hrec x' hmem
          exact ⟨y', List.mem_cons_of_mem y0 hy', hfy'⟩

/-- Every non-synthetic result a successful `checkRule` emits satisfies the
diff/passed contract. -/
theorem checkRule_result_spec (env : CheckEnv) (cfg : NormalizedConfigM)
    (rule : FileRule) (lst : List CheckResult)
    (hck : checkRule env cfg rule = .ok lst) :
    ∀ r ∈ lst, r.error = none →
      ∃ s, r.size = some s ∧ r.diff = some (s - r.maxSize) ∧
        (r.passed = true ↔ s - r.maxSize ≤ 0) ∧ (s = r.maxSize → r.passed = true) := by
  intro r hr hne
  cases hgt : getTester (effectiveTesterId cfg rule) env.customTesters with
  | error e =>
    simp only [checkRule, hgt] at hck
    exact absurd hck (by simp)
  | ok tester =>
    simp only [checkRule, hgt] at hck
    by_cases hemp : (env.resolveFiles rule.pattern).isEmpty
    · rw [if_pos hemp] at hck
      simp only [Except.ok.injEq] at hck
      subst hck
      rcases List.mem_singleton.mp hr with rfl
      simp [buildMissingResult] at hne
    · rw [if_neg hemp] at hck
      obtain ⟨m, _, hm⟩ := exceptMapM_ok_mem_src _ _ _ hck r hr
      simp only [measureMatch] at hm
      cases hms : env.measure tester.id m.absolutePath with
      | none => rw [hms] at hm; exact absurd hm (by simp)
      | some size =>
        rw [hms] at hm
        simp only [Except.ok.injEq] at hm
        subst hm
        refine ⟨size, rfl, rfl, ?_, ?_⟩
        · simp
        · intro hs
          simp [hs]

/-- Claim C4: in every successful `runChecks` run, each measured result has
`diff = size - maxBytes` and passes exactly when the diff is nonpositive;
in particular a file exactly at budget passes. -/
theorem runChecks_diff_passed (env : CheckEnv) (cfg : NormalizedConfigM) (out : CheckRun)
    (hrun : runChecks env cfg = .ok out) :
    ∀ r ∈ out.results, r.error = none →
      ∃ s, r.size = some s ∧ r.diff = some (s - r.maxSize) ∧
        (r.passed = true ↔ s - r.maxSize ≤ 0) ∧ (s = r.maxSize → r.passed = true) := by
  intro r hr hne
  simp only [runChecks] at hrun
  cases hmap : exceptMapM (checkRule env cfg) cfg.files with
  | error e => rw [hmap] at hrun; exact absurd hrun (by simp)
  | ok perRule =>
    rw [hmap] at hrun
    simp only [Except.ok.injEq] at hrun
    subst hrun
    obtain ⟨lst, hlst, hrlst⟩ := List.mem_flatten.mp hr
    obtain ⟨rule, _, hrule⟩ := exceptMapM_ok_mem_src _ _ _ hmap lst hlst
    exact checkRule_result_spec env cfg rule lst hrule r hrlst hne

/-- Witness for C4 at a concrete input: one rule with a 100-byte budget and
a file measured at exactly 100 bytes. -/
theorem runChecks_diff_passed_witness :
    ∃ s, c4Result.size = some s ∧ c4Result.diff = some (s - c4Result.maxSize) ∧
      (c4Result.passed = true ↔ s - c4Result.maxSize ≤ 0) ∧
      (s = c4Result.maxSize → c4Result.passed = true) :=
  runChecks_diff_passed c4Env c4Cfg c4Out rfl c4Result (by simp [c4Out]) rfl

/-- Claim C5: a rule whose pattern matches nothing yields exactly one
synthetic result with the fixed error message, `passed = false` and a null
size; it reaches the final results of any successful run (the run is not
aborted) and forces both `hasFailures` and `hasErrors`. -/
theorem runChecks_missing_pattern (env : CheckEnv) (cfg : NormalizedConfigM)
    (rule : FileRule) (hmem : rule ∈ cfg.files)
    (hempty : env.resolveFiles rule.pattern = []) :
    (buildMissingResult rule).error = some ("No files matched this pattern") ∧
    (buildMissingResult rule).passed = false ∧
    (buildMissingResult rule).size = none ∧
    (∀ t, getTester (effectiveTesterId cfg rule) env.customTesters = .ok t →
      checkRule env cfg rule = .ok [buildMissingResult rule]) ∧
    (∀ out, runChecks env cfg = .ok out →
      buildMissingResult rule ∈ out.results ∧
      out.stats.hasFailures = true ∧ out.stats.hasErrors = true) := by
  refine ⟨rfl, rfl, rfl, ?_, ?_⟩
  · intro t ht
    simp [checkRule, ht, hempty]
  · intro out hrun
    simp only [runChecks] at hrun
    cases hmap : exceptMapM (checkRule env cfg) cfg.files with
    | error e => rw [hmap] at hrun; exact absurd hrun (by simp)
    | ok perRule =>
      rw [hmap] at hrun
      simp only [Except.ok.injEq] at hrun
      subst hrun
      obtain ⟨lst, hlst, hck⟩ := exceptMapM_ok_of_mem _ _ _ hmap rule hmem
      have hlstval : lst = [buildMissingResult rule] := by
        cases hgt : getTester (effectiveTesterId cfg rule) env.customTesters with
        | error e =>
          simp only [checkRule, hgt] at hck
          exact absurd hck (by simp)
        | ok t =>
          simp only [checkRule, hgt, hempty, List.isEmpty_nil, if_true,
            Except.ok.injEq] at hck
          exact hck.symm
      subst hlstval
      have hmemres : buildMissingResult rule ∈ perRule.flatten :=
        List.mem_flatten.mpr ⟨[buildMissingResult rule], hlst, List.mem_singleton_self _⟩
      have hmemfail : buildMissingResult rule ∈
          perRule.flatten.filter (fun entry => !entry.passed || entry.error.isSome) :=
        List.mem_filter.mpr ⟨hmemres, by simp [buildMissingResult]⟩
      refine ⟨hmemres, ?_, ?_⟩
      · simp only [decide_eq_true_eq]
        exact List.length_pos.mpr (List.ne_nil_of_mem hmemfail)
      · exact List.any_eq_true.mpr ⟨buildMissingResult rule, hmemfail, by simp [buildMissingResult]⟩

/-- Witness for C5 at a concrete input: the sample rule against an
environment where no file matches. -/
theorem runChecks_missing_pattern_witness :
    (buildMissingResult c4Rule).error = some ("No files matched this pattern") ∧
    buildMissingResult c4Rule ∈ c5Out.results ∧
    c5Out.stats.hasFailures = true ∧ c5Out.stats.hasErrors = true := by
  have h := runChecks_missing_pattern c5Env c4Cfg c4Rule (by simp [c4Cfg]) rfl
  have h2 := h.2.2.2.2 c5Out rfl
  exact ⟨h.1, h2.1, h2.2.1, h2.2.2⟩

/-- Claim C7: configuration discovery follows exactly the precedence
inline → explicit `--config` path (failing loudly when missing) →
`overweight.json` → `overweight.config.json` → package.json's `overweight`
field → the "no configuration found" error naming the attempted locations. -/
theorem loadConfig_precedence {Cfg NC : Type} (env : LoadEnv Cfg NC) (root : String) :
    (∀ (configPath : Option String) (c : Cfg),
      loadConfig env root configPath (some c) = env.normalize c .inlineSource) ∧
    (∀ p : String, env.fileExists (jsPathResolve root p) = false →
      loadConfig env root (some p) none =
        .error ("Could not find config file at \"" ++ jsPathResolve root p ++ "\"")) ∧
    (∀ (p : String) (nc : NC), tryLoadConfig env (jsPathResolve root p) = .ok (some nc) →
      loadConfig env root (some p) none = .ok nc) ∧
    (∀ nc : NC, tryLoadConfig env (jsPathJoin root ("overweight.json")) = .ok (some nc) →
      loadConfig env root none none = .ok nc) ∧
    (env.fileExists (jsPathJoin root ("overweight.json")) = false →
      ∀ nc : NC,
        tryLoadConfig env (jsPathJoin root ("overweight.config.json")) = .ok (some nc) →
        loadConfig env root none none = .ok nc) ∧
    (env.fileExists (jsPathJoin root ("overweight.json")) = false →
      env.fileExists (jsPathJoin root ("overweight.config.json")) = false →
      ∀ (pkgJson field : Cfg),
        env.fileExists (jsPathJoin root ("package.json")) = true →
        env.readJson (jsPathJoin root ("package.json")) = .ok pkgJson →
        env.overweightField pkgJson = some field →
        loadConfig env root none none =
          env.normalize (env.ensureArrayConfig field)
            (.packageSource (jsPathJoin root ("package.json")))) ∧
    (env.fileExists (jsPathJoin root ("overweight.json")) = false →
      env.fileExists (jsPathJoin root ("overweight.config.json")) = false →
      env.fileExists (jsPathJoin root ("package.json")) = false →
      loadConfig env root none none = .error NO_CONFIG_MSG) ∧
    (env.fileExists (jsPathJoin root ("overweight.json")) = false →
      env.fileExists (jsPathJoin root ("overweight.config.json")) = false →
      ∀ pkgJson : Cfg, env.readJson (jsPathJoin root ("package.json")) = .ok pkgJson →
        env.overweightField pkgJson = none →
        loadConfig env root none none = .error NO_CONFIG_MSG) := by
  refine ⟨?_, ?_, ?_, ?_, ?_, ?_, ?_, ?_⟩
  · intro configPath c
    rfl
  · intro p hmiss
    simp [loadConfig, tryLoadConfig, hmiss]
  · intro p nc h
    simp only [loadConfig]
    rw [h]
  · intro nc h
    simp only [loadConfig]
    rw [h]
  · intro h1 nc h
    have h1' : tryLoadConfig env (jsPathJoin root ("overweight.json")) = .ok none := by
      simp [tryLoadConfig, h1]
    simp only [loadConfig]
    rw [h1', h]
  · intro h1 h2 pkgJson field hpkg hread hfield
    have h1' : tryLoadConfig env (jsPathJoin root ("overweight.json")) = .ok none := by
      simp [tryLoadConfig, h1]
    have h2' : tryLoadConfig env (jsPathJoin root ("overweight.config.json")) = .ok none := by
      simp [tryLoadConfig, h2]
    simp only [loadConfig]
    rw [h1', h2']
    simp [hpkg, hread, hfield]
  · intro h1 h2 h3
    have h1' : tryLoadConfig env (jsPathJoin root ("overweight.json")) = .ok none := by
      simp [tryLoadConfig, h1]
    have h2' : tryLoadConfig env (jsPathJoin root ("overweight.config.json")) = .ok none := by
      simp [tryLoadConfig, h2]
    simp only [loadConfig]
    rw [h1', h2']
    simp [h3]
  · intro h1 h2 pkgJson hread hfield
    have h1' : tryLoadConfig env (jsPathJoin root ("overweight.json")) = .ok none := by
      simp [tryLoadConfig, h1]
    have h2' : tryLoadConfig env (jsPathJoin root ("overweight.config.json")) = .ok none := by
      simp [tryLoadConfig, h2]
    simp only [loadConfig]
    rw [h1', h2']
    by_cases hpkg : env.fileExists (jsPathJoin root ("package.json")) = true
    · simp [hpkg, hread, hfield]
    · simp only [Bool.not_eq_true] at hpkg
      simp [hpkg]

/-- Witness for C7 at a concrete input: with no config files anywhere,
discovery fails with the "no configuration found" error. -/
theorem loadConfig_precedence_witness :
    loadConfig unitLoadEnv ("/repo") none none = .error NO_CONFIG_MSG :=
  (loadConfig_precedence unitLoadEnv ("/repo")).2.2.2.2.2.2.1 rfl rfl rfl

theorem cmpChars_eq_zero_iff : ∀ as bs : List Char, cmpChars as bs = 0 ↔ as = bs := by
  intro as
  induction as with
  | nil => intro bs; cases bs <;> simp [cmpChars]
  | cons a as' ih =>
    intro bs
    cases bs with
    | nil => simp [cmpChars]
    | cons b bs' =>
      simp only [cmpChars]
      by_cases h1 : a.toNat < b.toNat
      · rw [if_pos h1]
        constructor
        · intro h; exact absurd h (by decide)
        · intro h
          injection h with hab _
          exact absurd (hab ▸ h1) (lt_irrefl _)
      · rw [if_neg h1]
        by_cases h2 : b.toNat < a.toNat
        · rw [if_pos h2]
          constructor
          · intro h; exact absurd h (by decide)
          · intro h
            injection h with hab _
            exact absurd (hab ▸ h2) (lt_irrefl _)
        · rw [if_neg h2]
          have hab : a = b := Char.ext (UInt32.ext (show a.toNat = b.toNat by omega))
          subst hab
          simp [ih]

theorem cmpChars_swap : ∀ as bs : List Char, cmpChars bs as = -cmpChars as bs := by
  intro as
  induction as with
  | nil => intro bs; cases bs <;> simp [cmpChars]
  | cons a as' ih =>
    intro bs
    cases bs with
    | nil => simp [cmpChars]
    | cons b bs' =>
      simp only [cmpChars]
      rcases lt_trichotomy a.toNat b.toNat with h | h | h
      · have h' : ¬ b.toNat < a.toNat := by omega
        simp [h, h']
      · have h1 : ¬ a.toNat < b.toNat := by omega
        have h2 : ¬ b.toNat < a.toNat := by omega
        simp [h1, h2, ih bs']
      · have h' : ¬ a.toNat < b.toNat := by omega
        simp [h, h']

theorem cmpChars_le_trans : ∀ as bs cs : List Char,
    cmpChars as bs ≤ 0 → cmpChars bs cs ≤ 0 → cmpChars as cs ≤ 0 := by
  intro as
  induction as with
  | nil => intro bs cs _ _; cases cs <;> simp [cmpChars]
  | cons a as' ih =>
    intro bs cs h1 h2
    cases bs with
    | nil => simp [cmpChars] at h1
    | cons b bs' =>
      cases cs with
      | nil => simp [cmpChars] at h2
      | cons c cs' =>
        simp only [cmpChars] at h1 h2 ⊢
        by_cases hab : a.toNat < b.toNat
        · have hbc : ¬ c.toNat < b.toNat := by
            intro hcb
            rw [if_neg (by omega), if_pos hcb] at h2
            omega
          have hac : a.toNat < c.toNat := by omega
          rw [if_pos hac]
          omega
        · by_cases hba : b.toNat < a.toNat
          · rw [if_neg hab, if_pos hba] at h1
            omega
          · rw [if_neg hab, if_neg hba] at h1
            by_cases hbc : b.toNat < c.toNat
            · have hac : a.toNat < c.toNat := by omega
              rw [if_pos hac]
              omega
            · by_cases hcb : c.toNat < b.toNat
              · rw [if_neg hbc, if_pos hcb] at h2
                omega
              · rw [if_neg hbc, if_neg hcb] at h2
                rw [if_neg (by omega), if_neg (by omega)]
                exact ih bs' cs' h1 h2

theorem fileLe_total (x y : BaselineEntry) :
    jsLocaleCompare x.file y.file ≤ 0 ∨ jsLocaleCompare y.file x.file ≤ 0 := by
  unfold jsLocaleCompare
  rw [cmpChars_swap]
  omega

theorem fileLe_trans {x y z : BaselineEntry}
    (h1 : jsLocaleCompare x.file y.file ≤ 0) (h2 : jsLocaleCompare y.file z.file ≤ 0) :
    jsLocaleCompare x.file z.file ≤ 0 :=
  cmpChars_le_trans _ _ _ h1 h2

theorem insertByFile_perm (x : BaselineEntry) :
    ∀ l : List BaselineEntry, (insertByFile x l).Perm (x :: l) := by
  intro l
  induction l with
  | nil => exact List.Perm.refl _
  | cons y ys ih =>
    simp only [insertByFile]
    by_cases h : jsLocaleCompare y.file x.file ≤ 0
    · rw [if_pos h]
      exact (ih.cons y).trans (List.Perm.swap x y ys)
    · rw [if_neg h]

theorem insertByFile_sorted (x : BaselineEntry) :
    ∀ l : List BaselineEntry,
      List.Pairwise (fun a b : BaselineEntry => jsLocaleCompare a.file b.file ≤ 0) l →
      List.Pairwise (fun a b : BaselineEntry => jsLocaleCompare a.file b.file ≤ 0)
        (insertByFile x l) := by
  intro l
  induction l with
  | nil => intro _; simp [insertByFile]
  | cons y ys ih =>
    intro hp
    rcases List.pairwise_cons.mp hp with ⟨hy, hys⟩
    simp only [insertByFile]
    by_cases h : jsLocaleCompare y.file x.file ≤ 0
    · rw [if_pos h]
      refine List.pairwise_cons.mpr ⟨?_, ih hys⟩
      intro z hz
      have hz' := (insertByFile_perm x ys).mem_iff.mp hz
      rcases List.mem_cons.mp hz' with rfl | hzys
      · exact h
      · exact hy z hzys
    · rw [if_neg h]
      have hxy : jsLocaleCompare x.file y.file ≤ 0 := by
        rcases fileLe_total x y with h' | h'
        · exact h'
        · exact absurd h' h
      refine List.pairwise_cons.mpr ⟨?_, hp⟩
      intro z hz
      rcases List.mem_cons.mp hz with rfl | hzys
      · exact hxy
      · exact fileLe_trans hxy (hy z hzys)

theorem sortByFile_aux_perm : ∀ (l acc : List BaselineEntry),
    (l.foldl (fun acc x => insertByFile x acc) acc).Perm (acc ++ l) := by
  intro l
  induction l with
  | nil => intro acc; simp
  | cons x xs ih =>
    intro acc
    simp only [List.foldl_cons]
    refine (ih (insertByFile x acc)).trans ?_
    refine (List.Perm.append_right xs (insertByFile_perm x acc)).trans ?_
    exact List.perm_middle.symm

theorem sortByFile_perm (l : List BaselineEntry) : (sortByFile l).Perm l := by
  simpa [sortByFile] using sortByFile_aux_perm l []

theorem sortByFile_aux_sorted : ∀ (l acc : List BaselineEntry),
    List.Pairwise (fun a b : BaselineEntry => jsLocaleCompare a.file b.file ≤ 0) acc →
    List.Pairwise (fun a b : BaselineEntry => jsLocaleCompare a.file b.file ≤ 0)
      (l.foldl (fun acc x => insertByFile x acc) acc) := by
  intro l
  induction l with
  | nil => intro acc h; exact h
  | cons x xs ih =>
    intro acc h
    simp only [List.foldl_cons]
    exact ih (insertByFile x acc) (insertByFile_sorted x acc h)

theorem sortByFile_sorted (l : List BaselineEntry) :
    List.Pairwise (fun a b : BaselineEntry => jsLocaleCompare a.file b.file ≤ 0)
      (sortByFile l) :=
  sortByFile_aux_sorted l [] List.Pairwise.nil

theorem string_of_data_eq {a b : String} (h : a.data = b.data) : a = b := by
  cases a
  cases b
  simp only at h
  rw [h]

theorem buildBaselineSnapshot_eq_of_perm (rows1 rows2 : List SummaryRow)
    (hperm : rows1.Perm rows2) (hnd : (rows1.map (fun r => r.file)).Nodup) :
    buildBaselineSnapshot rows1 = buildBaselineSnapshot rows2 := by
  have hperm' : (buildBaselineSnapshot rows1).Perm (buildBaselineSnapshot rows2) :=
    (sortByFile_perm _).trans ((hperm.map toBaselineEntry).trans (sortByFile_perm _).symm)
  have hmapfiles : ∀ rows : List SummaryRow,
      ((buildBaselineSnapshot rows).map (fun e : BaselineEntry => e.file)).Perm
        (rows.map (fun r => r.file)) := by
    intro rows
    have := (sortByFile_perm (rows.map toBaselineEntry)).map (fun e : BaselineEntry => e.file)
    simpa [List.map_map, Function.comp, buildBaselineSnapshot, toBaselineEntry] using this
  have hnd1 : ((buildBaselineSnapshot rows1).map (fun e : BaselineEntry => e.file)).Nodup :=
    (hmapfiles rows1).nodup_iff.mpr hnd
  have hnd2 : ((buildBaselineSnapshot rows2).map (fun e : BaselineEntry => e.file)).Nodup :=
    (hperm'.map (fun e : BaselineEntry => e.file)).nodup_iff.mp hnd1
  have hstrict : ∀ rows : List SummaryRow,
      ((buildBaselineSnapshot rows).map (fun e : BaselineEntry => e.file)).Nodup →
      List.Sorted (fun a b : BaselineEntry => jsLocaleCompare a.file b.file < 0)
        (buildBaselineSnapshot rows) := by
    intro rows hndr
    have hle := sortByFile_sorted (rows.map toBaselineEntry)
    have hne : List.Pairwise (fun a b : BaselineEntry => a.file ≠ b.file)
        (buildBaselineSnapshot rows) := List.pairwise_map.mp hndr
    refine (hle.and hne).imp ?_
    rintro a b ⟨h1, h2⟩
    have hne0 : jsLocaleCompare a.file b.file ≠ 0 := by
      intro h0
      exact h2 (string_of_data_eq ((cmpChars_eq_zero_iff _ _).mp h0))
    omega
  haveI : IsAntisymm BaselineEntry (fun a b => jsLocaleCompare a.file b.file < 0) := by
    refine ⟨?_⟩
    intro a b h1 h2
    exfalso
    unfold jsLocaleCompare at h1 h2
    rw [cmpChars_swap] at h2
    omega
  exact List.eq_of_perm_of_sorted hperm' (hstrict rows1 hnd1) (hstrict rows2 hnd2)

/-- Counterexample to C8 as stated: two rows with the same `file` key but
different labels have identical logical content in either order, yet the
stable sort preserves their relative order, so the two serializations are
different byte strings. -/
theorem serialize_not_permutation_invariant :
    ([rowXA, rowYA].Perm ([rowYA, rowXA])) ∧
    serializeBaselineSnapshot [rowXA, rowYA] ≠ serializeBaselineSnapshot [rowYA, rowXA] :=
  ⟨List.Perm.swap rowYA rowXA [], by decide⟩

/-- Claim C8 (amended): the serialized snapshot consists of exactly the
seven-key records picked from the rows, sorted by `file` ascending, and two
row sequences with identical logical content and pairwise-distinct `file`
values serialize to byte-identical strings.  (With duplicate `file` values
the stable sort preserves input order, so permuted duplicates may differ.) -/
theorem serializeBaselineSnapshot_canonical :
    (∀ rows : List SummaryRow,
      List.Pairwise (fun a b : BaselineEntry => jsLocaleCompare a.file b.file ≤ 0)
        (buildBaselineSnapshot rows)) ∧
    (∀ rows : List SummaryRow, (buildBaselineSnapshot rows).Perm (rows.map toBaselineEntry)) ∧
    (∀ rows1 rows2 : List SummaryRow, rows1.Perm rows2 →
      (rows1.map (fun r => r.file)).Nodup →
      serializeBaselineSnapshot rows1 = serializeBaselineSnapshot rows2) := by
  refine ⟨fun rows => sortByFile_sorted _, fun rows => sortByFile_perm _, ?_⟩
  intro rows1 rows2 hperm hnd
  have hb := buildBaselineSnapshot_eq_of_perm rows1 rows2 hperm hnd
  simp [serializeBaselineSnapshot, hb]

/-- Witness for C8 (amended) at a concrete input: two rows with distinct
files serialize identically in either order. -/
theorem serializeBaselineSnapshot_canonical_witness :
    serializeBaselineSnapshot [rowXA, rowB] = serializeBaselineSnapshot [rowB, rowXA] :=
  serializeBaselineSnapshot_canonical.2.2 [rowXA, rowB] [rowB, rowXA]
    (List.Perm.swap rowB rowXA []) (by decide)

theorem dropWhile_all_false {p : Char → Bool} :
    ∀ l : List Char, (∀ c, l.head? = some c → p c = false) → l.dropWhile p = l := by
  intro l h
  cases l with
  | nil => rfl
  | cons c t => simp [List.dropWhile_cons, h c rfl]

theorem takeWhile_append_all {p : Char → Bool} :
    ∀ (l1 l2 : List Char), (∀ c ∈ l1, p c = true) →
      (∀ c, l2.head? = some c → p c = false) →
      (l1 ++ l2).takeWhile p = l1 := by
  intro l1
  induction l1 with
  | nil =>
    intro l2 _ h2
    cases l2 with
    | nil => rfl
    | cons c t => simp [List.takeWhile_cons, h2 c rfl]
  | cons a l1' ih =>
    intro l2 h1 h2
    simp only [List.cons_append, List.takeWhile_cons, h1 a (List.mem_cons_self a l1')]
    simp only [if_true]
    rw [ih l2 (fun c hc => h1 c (List.mem_cons_of_mem a hc)) h2]

theorem dropWhile_append_all {p : Char → Bool} :
    ∀ (l1 l2 : List Char), (∀ c ∈ l1, p c = true) →
      (∀ c, l2.head? = some c → p c = false) →
      (l1 ++ l2).dropWhile p = l2 := by
  intro l1
  induction l1 with
  | nil =>
    intro l2 _ h2
    simp only [List.nil_append]
    exact dropWhile_all_false l2 h2
  | cons a l1' ih =>
    intro l2 h1 h2
    simp only [List.cons_append, List.dropWhile_cons, h1 a (List.mem_cons_self a l1')]
    simp only [if_true]
    exact ih l2 (fun c hc => h1 c (List.mem_cons_of_mem a hc)) h2

theorem string_mk_data (s : String) : String.mk s.data = s := by
  cases s
  rfl

theorem isDigit_not_ws {c : Char} (h : isDigitChar c = true) : isJsWhitespace c = false := by
  simp only [isDigitChar, Bool.and_eq_true, decide_eq_true_eq] at h
  simp only [isJsWhitespace, Bool.or_eq_false_iff, decide_eq_false_iff_not]
  omega

theorem isDigit_lower_id {c : Char} (h : isDigitChar c = true) : jsToLowerChar c = c := by
  simp only [isDigitChar, Bool.and_eq_true, decide_eq_true_eq] at h
  have hcond : (65 ≤ c.toNat && c.toNat ≤ 90) = false := by
    simp only [Bool.and_eq_false_iff, decide_eq_false_iff_not]
    omega
  simp [jsToLowerChar, hcond]

theorem isAlpha_not_ws {c : Char} (h : isLowerAlphaChar c = true) : isJsWhitespace c = false := by
  simp only [isLowerAlphaChar, Bool.and_eq_true, decide_eq_true_eq] at h
  simp only [isJsWhitespace, Bool.or_eq_false_iff, decide_eq_false_iff_not]
  omega

theorem isAlpha_lower_id {c : Char} (h : isLowerAlphaChar c = true) : jsToLowerChar c = c := by
  simp only [isLowerAlphaChar, Bool.and_eq_true, decide_eq_true_eq] at h
  have hcond : (65 ≤ c.toNat && c.toNat ≤ 90) = false := by
    simp only [Bool.and_eq_false_iff, decide_eq_false_iff_not]
    omega
  simp [jsToLowerChar, hcond]

theorem isAlpha_not_digit {c : Char} (h : isLowerAlphaChar c = true) : isDigitChar c = false := by
  simp only [isLowerAlphaChar, Bool.and_eq_true, decide_eq_true_eq] at h
  simp only [isDigitChar, Bool.and_eq_false_iff, decide_eq_false_iff_not]
  omega

theorem isAlpha_ne_dot {c : Char} (h : isLowerAlphaChar c = true) : c ≠ '.' := by
  intro heq
  rw [heq] at h
  exact absurd h (by decide)

theorem normalizeSizeString_id {s : String}
    (h : ∀ c ∈ s.data, isJsWhitespace c = false ∧ jsToLowerChar c = c) :
    normalizeSizeString s = s := by
  have hws : ∀ c ∈ s.data, isJsWhitespace c = false := fun c hc => (h c hc).1
  have htrim : jsTrim s = s := by
    unfold jsTrim
    rw [dropWhile_all_false s.data (fun c hc => hws c (List.mem_of_mem_head? hc))]
    rw [dropWhile_all_false s.data.reverse
      (fun c hc => hws c (List.mem_reverse.mp (List.mem_of_mem_head? hc)))]
    rw [List.reverse_reverse]
  have hlower : jsToLower s = s := by
    unfold jsToLower
    rw [List.map_congr_left (fun c hc => (h c hc).2)]
    simp
  have hstrip : stripWhitespace s = s := by
    unfold stripWhitespace
    rw [List.filter_eq_self.mpr (fun c hc => by rw [hws c hc]; rfl)]
  unfold normalizeSizeString
  rw [htrim, hlower, hstrip]

theorem matchSizeFormat_neg (ds us : List Char) (hds : ds ≠ [])
    (hdig : ∀ c ∈ ds, isDigitChar c = true)
    (hus : us ≠ []) (hal : ∀ c ∈ us, isLowerAlphaChar c = true) :
    matchSizeFormat ('-' :: (ds ++ us)) =
      some { neg := true, intDigits := ds, fracDigits := [], unitChars := us } := by
  have hhead : ∀ c, us.head? = some c → isDigitChar c = false := by
    intro c hc
    exact isAlpha_not_digit (hal c (List.mem_of_mem_head? hc))
  have htake : (ds ++ us).takeWhile isDigitChar = ds :=
    takeWhile_append_all ds us hdig hhead
  have hdrop : (ds ++ us).dropWhile isDigitChar = us :=
    dropWhile_append_all ds us hdig hhead
  have htakeu : us.takeWhile isLowerAlphaChar = us := by
    have := takeWhile_append_all us [] hal (fun c hc => by simp at hc)
    simpa using this
  have hdropu : us.dropWhile isLowerAlphaChar = [] := by
    have := dropWhile_append_all us [] hal (fun c hc => by simp at hc)
    simpa using this
  have hdse : ds.isEmpty = false := by
    cases ds with
    | nil => exact absurd rfl hds
    | cons a t => rfl
  simp only [matchSizeFormat, htake, hdrop, hdse, Bool.false_eq_true, if_false]
  cases us with
  | nil => exact absurd rfl hus
  | cons c ut =>
    have hcdot : c ≠ '.' := isAlpha_ne_dot (hal c (List.mem_cons_self c ut))
    have hfrac :
        (match c :: ut with
          | '.' :: t =>
            if (t.takeWhile isDigitChar).isEmpty then ([], c :: ut)
            else (t.takeWhile isDigitChar, t.dropWhile isDigitChar)
          | _ => ([], c :: ut) : List Char × List Char) = ([], c :: ut) := by
      split
      · rename_i heq
        injection heq with h1 _
        exact absurd h1 hcdot
      · rfl
    rw [hfrac]
    simp only [htakeu, hdropu, List.isEmpty_nil, if_true]

theorem unit_facts (u : String) (f : ℕ) (hu : (u, f) ∈ UNIT_FACTORS) :
    u.data ≠ [] ∧ (∀ c ∈ u.data, isLowerAlphaChar c = true) ∧
    UNIT_FACTORS.lookup u = some f := by
  fin_cases hu <;> exact ⟨by decide, by decide, by decide⟩

theorem jsRound_intCast (n : ℤ) : jsRound ((n : ℚ)) = n := by
  unfold jsRound
  rw [Int.floor_int_add]
  norm_num

theorem matchedNumber_neg (ds us : List Char) :
    matchedNumber { neg := true, intDigits := ds, fracDigits := [], unitChars := us } =
      -(digitsToNat ds : ℚ) := by
  have h0 : digitsToNat ([] : List Char) = 0 := rfl
  simp [matchedNumber, h0]

theorem parseSize_negative (ds : List Char) (u : String) (f : ℕ)
    (hds : ds ≠ []) (hdig : ∀ c ∈ ds, isDigitChar c = true)
    (hu : (u, f) ∈ UNIT_FACTORS) :
    parseSize (.str (String.mk ('-' :: (ds ++ u.data)))) =
      .ok (-((digitsToNat ds : ℚ) * (f : ℚ))) := by
  obtain ⟨hune, hual, hlook⟩ := unit_facts u f hu
  have hnorm : normalizeSizeString (String.mk ('-' :: (ds ++ u.data))) =
      String.mk ('-' :: (ds ++ u.data)) := by
    apply normalizeSizeString_id
    intro c hc
    rcases List.mem_cons.mp hc with rfl | hc2
    · exact ⟨by decide, by decide⟩
    · rcases List.mem_append.mp hc2 with hd | hu2
      · exact ⟨isDigit_not_ws (hdig c hd), isDigit_lower_id (hdig c hd)⟩
      · exact ⟨isAlpha_not_ws (hual c hu2), isAlpha_lower_id (hual c hu2)⟩
  have huse : u.data.isEmpty = false := by
    cases hx : u.data with
    | nil => exact absurd hx hune
    | cons a t => rfl
  simp only [parseSize, hnorm]
  rw [matchSizeFormat_neg ds u.data hds hdig hune hual]
  simp only [huse, Bool.false_eq_true, if_false, string_mk_data, hlook]
  rw [matchedNumber_neg]
  have hcast : (-(digitsToNat ds : ℚ)) * (f : ℚ) =
      ((-((digitsToNat ds : ℤ) * (f : ℤ)) : ℤ) : ℚ) := by
    push_cast
    ring
  rw [hcast, jsRound_intCast]
  push_cast
  ring_nf

/-- Claim C10: `parseSize` accepts `-<digits><unit>` for every recognized
unit and returns the negated rounded byte count; non-negativity is enforced
only by `normalizeConfig`'s per-file check, which (given a successful
parse) errors exactly when the parsed budget is negative. -/
theorem negative_size_parse_and_normalize_gate (ds : List Char) (u : String) (f : ℕ)
    (hds : ds ≠ []) (hdig : ∀ c ∈ ds, isDigitChar c = true)
    (hu : (u, f) ∈ UNIT_FACTORS) :
    parseSize (.str (String.mk ('-' :: (ds ++ u.data)))) =
      .ok (-((digitsToNat ds : ℚ) * (f : ℚ))) ∧
    (∀ (fmt : ℚ → String) (dc : String) (file : RawFileEntry) (v : ℚ),
      parseSize file.maxSize = .ok v →
      ((∃ e, normalizeFileRule fmt dc file = .error e) ↔ v < 0)) := by
  refine ⟨parseSize_negative ds u f hds hdig hu, ?_⟩
  intro fmt dc file v hv
  constructor
  · rintro ⟨e, he⟩
    by_contra hneg
    simp only [normalizeFileRule, hv] at he
    rw [if_neg hneg] at he
    exact absurd he (by simp)
  · intro hneg
    have herr : normalizeFileRule fmt dc file =
        .error ("maxSize for \"" ++ file.path ++ "\" must be greater than or equal to zero") := by
      simp only [normalizeFileRule, hv]
      rw [if_pos hneg]
    exact ⟨_, herr⟩

/-- Witness for C10 at a concrete input: `"-1kb"` parses to `-1000`, and a
negative numeric budget makes `normalizeConfig`'s per-file step error. -/
theorem negative_size_parse_and_normalize_gate_witness :
    parseSize (.str (String.mk ('-' :: (['1'] ++ "kb".data)))) =
      .ok (-((digitsToNat ['1'] : ℚ) * (1000 : ℚ))) ∧
    (∃ e, normalizeFileRule (fun _ => "") ("gzip") negRawEntry = .error e) := by
  have h := negative_size_parse_and_normalize_gate (['1']) ("kb") 1000
    (by decide) (by decide) (by decide)
  refine ⟨h.1, ?_⟩
  exact (h.2 (fun _ => "") ("gzip") negRawEntry ((-5 : ℤ) : ℚ) rfl).mpr
    (Int.cast_lt_zero.mpr (by decide))

end Overweight
